import Mathlib

/-!
Verification development for the data-quality agent repository
(`app.py`, `check_violations.py`, `create_rule.py`, `trading_agents.py`).

The Python sources are shallowly embedded: Python strings that the code
manipulates character-by-character are modelled as `List Char`; the
database engine and the pandas rendering are abstract parameters
(`db`, `showT`, `render`); Python exceptions raised by the database
driver are the `.error` case of an `Except` oracle, and the Python
`try`/`except` blocks become matches on that oracle.
-/

set_option maxRecDepth 4096

abbrev LC := List Char

/-- Models Python `needle in haystack` prefix test: `s` starts with `pat`. -/
def startsWithL : LC → LC → Bool
  | [], _ => true
  | _ :: _, [] => false
  | p :: ps, c :: cs => p = c && startsWithL ps cs

/-- Models Python `pat in s` (substring containment). -/
def containsSub (pat : LC) : LC → Bool
  | [] => pat.isEmpty
  | c :: rest => startsWithL pat (c :: rest) || containsSub pat rest

/-- Models Python `s.find(pat)` restricted to the found case: index of the
first occurrence of `pat` in `s`, `none` when absent. -/
def findSub (pat : LC) : LC → Option Nat
  | [] => if pat.isEmpty then some 0 else none
  | c :: rest =>
    if startsWithL pat (c :: rest) then some 0
    else (findSub pat rest).map (· + 1)

/-- Models Python `s.find(ch)` restricted to the found case. -/
def firstIdxChar (ch : Char) : LC → Option Nat
  | [] => none
  | c :: rest => if c = ch then some 0 else (firstIdxChar ch rest).map (· + 1)

/-- Models Python `s.rfind(ch)` restricted to the found case: index of the
last occurrence of `ch` in `s`. -/
def lastIdxChar (ch : Char) : LC → Option Nat
  | [] => none
  | c :: rest =>
    match lastIdxChar ch rest with
    | some i => some (i + 1)
    | none => if c = ch then some 0 else none

/-- Models the Python slice `s[start:stop]` (with the clamping slice
semantics of Python). -/
def sliceL (s : LC) (start stop : Nat) : LC := (s.drop start).take (stop - start)

/-- The character set Python's `str.strip()` removes. -/
def isPyWs (c : Char) : Bool :=
  c = ' ' || c = '\t' || c = '\n' || c = '\r' || c = '\x0b' || c = '\x0c'

/-- Models Python `s.lstrip()`. -/
def lstripWs (s : LC) : LC := s.dropWhile isPyWs

/-- Models Python `s.strip()`. -/
def stripWsL (s : LC) : LC :=
  ((s.dropWhile isPyWs).reverse.dropWhile isPyWs).reverse

/-- Models Python `s.strip(chars)`: removes leading and trailing characters
drawn from the set `cs` (not the literal prefix/suffix `cs`). -/
def stripSetL (cs : LC) (s : LC) : LC :=
  ((s.dropWhile (cs.contains ·)).reverse.dropWhile (cs.contains ·)).reverse

/-- Models Python `s.upper()` on the ASCII text the tools handle. -/
def upperL (s : LC) : LC := s.map Char.toUpper

/-! ## check_violations.py: RuleExecutionTool -/

/-- A rule row fetched from the `Rules` table (`SELECT * FROM Rules ...`),
as used by `RuleExecutionTool._run`. -/
structure DQRule where
  rule_id : Nat
  rule_name : String
  rule_description : String
  rule_text : String
  severity : String
deriving DecidableEq

/-- A violation row of a rule's result set (cells already rendered). -/
abbrev Row := List String

/-- The database oracle behind `pd.read_sql(sql, conn)`: a successful
execution returns the result rows, a raised database error is `.error`. -/
abbrev DbExec := String → Except String (List Row)

/-- The per-rule outcome classified by the loop body of
`RuleExecutionTool._run` (check_violations.py lines 63-79). -/
inductive Outcome where
  | violated (r : DQRule) (rows : List Row)
  | clean (r : DQRule)
  | execError (r : DQRule) (msg : String)
deriving DecidableEq

def Outcome.isViolatedB : Outcome → Bool
  | .violated _ _ => true
  | _ => false

def Outcome.isCleanB : Outcome → Bool
  | .clean _ => true
  | _ => false

def Outcome.isExecErrorB : Outcome → Bool
  | .execError _ _ => true
  | _ => false

/-- Loop body of `RuleExecutionTool._run`: execute one rule's SQL inside
`try`/`except` and classify (`result.empty` → clean, non-empty → violated,
raised error → the except branch). -/
def classifyRule (db : DbExec) (r : DQRule) : Outcome :=
  match db r.rule_text with
  | .ok rows => if rows.isEmpty then .clean r else .violated r rows
  | .error e => .execError r e

/-- Whether a rule's SQL executes successfully with a non-empty result set. -/
def ruleHasViolations (db : DbExec) (r : DQRule) : Bool :=
  match db r.rule_text with
  | .ok rows => !rows.isEmpty
  | .error _ => false

/-- The `for rule in rules` loop of `RuleExecutionTool._run` building
`all_violations`, one entry per rule in load order. -/
def evalLoop (db : DbExec) : List DQRule → List Outcome
  | [] => []
  | r :: rest => classifyRule db r :: evalLoop db rest

/-- The f-string formatting of each `all_violations` entry
(check_violations.py lines 68-79); `showT` models `DataFrame.to_string()`. -/
def renderOutcome (showT : List Row → String) : Outcome → String
  | .violated r rows =>
    "\n❌ Rule \x27" ++ r.rule_name ++ "\x27 (ID: " ++ toString r.rule_id ++
      ", Severity: " ++ r.severity ++ ")" ++
      "\nDescription: " ++ r.rule_description ++
      "\nFound " ++ toString rows.length ++ " violation(s):\n" ++ showT rows
  | .clean r =>
    "\n✅ Rule \x27" ++ r.rule_name ++ "\x27 (ID: " ++ toString r.rule_id ++
      ") - No violations found"
  | .execError r e =>
    "\n⚠️ Error executing rule \x27" ++ r.rule_name ++ "\x27 (ID: " ++
      toString r.rule_id ++ "): " ++ e

/-- `RuleExecutionTool._run` from the point where the matching rules have
been fetched (check_violations.py lines 58-84); the surrounding connection
`try`/`except` (line 86) only guards engine construction and the rule
fetch, which are abstracted into the `rules` argument. -/
def ruleExecutionRun (showT : List Row → String) (db : DbExec)
    (rules : List DQRule) : String :=
  if rules.isEmpty then "No rules found matching the criteria"
  else
    let vs := (evalLoop db rules).map (renderOutcome showT)
    if vs.isEmpty then "No violations found for any rules"
    else String.intercalate "\n" vs

/-! ## trading_agents.py: SQLExecutionTool -/

/-- `SQLExecutionTool._run` (trading_agents.py lines 137-146): execute the
query and render it, or catch the raised error and return it as text.
`render` models `DataFrame.to_string()`. -/
def sqlExecutionRun {α : Type} (render : α → String)
    (db : String → Except String α) (sql_query : String) : String :=
  match db sql_query with
  | .ok res => render res
  | .error e => "Error executing query: " ++ e

/-! ## app.py: query_database presentation -/

/-- The pandas DataFrame facts `query_database` inspects: the number of
columns and the list of rows. -/
structure PyDataFrame where
  cols : Nat
  rows : List Row
deriving DecidableEq

/-- Models `DataFrame.empty`: true when either axis has length zero. -/
def PyDataFrame.emptyB (df : PyDataFrame) : Bool :=
  df.rows.isEmpty || df.cols == 0

inductive QueryResults where
  | table (df : PyDataFrame)
  | text (s : String)
deriving DecidableEq

/-- The dict returned by `query_database` (app.py lines 141-158). -/
structure QueryOutcome where
  sql_query : String
  results : QueryResults
  is_table : Bool
deriving DecidableEq

/-- `query_database` from the direct DataFrame fetch onward (app.py lines
134-158); the translator and executor agent round trips are abstracted
into `sql_query` (the extracted SQL) and `agentResult` (the agent's
rendering used for non-tabular display). -/
def query_database (db : String → Except String PyDataFrame)
    (agentResult : String) (sql_query : String) : QueryOutcome :=
  match db sql_query with
  | .ok df =>
    if (!df.emptyB && df.cols > 1) || df.rows.length > 1 then
      ⟨sql_query, .table df, true⟩
    else
      ⟨sql_query, .text agentResult, false⟩
  | .error e => ⟨sql_query, .text ("Error executing query: " ++ e), false⟩

/-! ## A model of the JSON values handled by `json.loads` in this code

`create_rule.py` and `trading_agents.py` feed model output through
`json.loads` and then treat the result as a flat dict. The parser below
models `json.loads` restricted to flat objects whose values are string
literals containing no escape sequences (no `\x22` and no backslash);
on that fragment it agrees with Python, and every claim about the JSON
path quantifies only over such texts. -/

inductive JVal where
  | str (s : LC)
  | num (n : Int)
  | bool (b : Bool)
deriving DecidableEq

/-- A decoded JSON object / Python dict, in insertion order. The decoded
objects in this development never carry duplicate keys. -/
abbrev JObj := List (LC × JVal)

/-- Models Python `d[k]` (first binding of `k`). -/
def lookupField : JObj → LC → Option JVal
  | [], _ => none
  | (k1, v) :: rest, k => if k1 = k then some v else lookupField rest k

/-- Models Python `d[k] = v`: replace the binding in place, append when
absent. -/
def setField : JObj → LC → JVal → JObj
  | [], k, v => [(k, v)]
  | (k1, v1) :: rest, k, v =>
    if k1 = k then (k, v) :: rest else (k1, v1) :: setField rest k v

/-- Models Python `k in d`. -/
def containsKey (o : JObj) (k : LC) : Bool := (lookupField o k).isSome

/-- The JSON whitespace characters skipped between tokens. -/
def isJsonWs (c : Char) : Bool :=
  c = ' ' || c = '\t' || c = '\n' || c = '\r'

def skipWsL (s : LC) : LC := s.dropWhile isJsonWs

/-- Scans a JSON string literal body up to its closing quote (no escape
sequences, per the fragment documented above). -/
def scanStr : LC → Option (LC × LC)
  | [] => none
  | c :: rest =>
    if c = '\x22' then some ([], rest)
    else (scanStr rest).map (fun p => (c :: p.1, p.2))

/-- Parses a JSON string literal (opening quote included). -/
def parseStrLit : LC → Option (LC × LC)
  | c :: rest => if c = '\x22' then scanStr rest else none
  | [] => none

/-- Parses the `"key": "value"` pair sequence of an object body up to and
including the closing brace; `fuel` bounds the number of pairs and is
always instantiated large enough to be irrelevant. -/
def parsePairs : Nat → LC → Option (JObj × LC)
  | 0, _ => none
  | fuel + 1, s =>
    match parseStrLit (skipWsL s) with
    | none => none
    | some (k, r1) =>
      match skipWsL r1 with
      | [] => none
      | c2 :: r2 =>
        if c2 = ':' then
          match parseStrLit (skipWsL r2) with
          | none => none
          | some (v, r3) =>
            match skipWsL r3 with
            | [] => none
            | c4 :: r4 =>
              if c4 = ',' then
                (parsePairs fuel r4).map (fun p => ((k, .str v) :: p.1, p.2))
              else if c4 = '\x7d' then some ([(k, .str v)], r4)
              else none
        else none

/-- Models `json.loads` on the fragment documented above: a flat object of
string values, rejecting trailing non-whitespace text. -/
def jsonParse (s : LC) : Option JObj :=
  match skipWsL s with
  | [] => none
  | c :: r =>
    if c = '\x7b' then
      match skipWsL r with
      | [] => none
      | c2 :: r2 =>
        if c2 = '\x7d' then
          if (skipWsL r2).isEmpty then some [] else none
        else
          match parsePairs (s.length + 1) r with
          | some (ps, rest) => if (skipWsL rest).isEmpty then some ps else none
          | none => none
    else none

/-- Serializes a flat JSON object (spec side, used to state that a model
output "contains a well-formed JSON object" with given field values). -/
def encStr (s : LC) : LC := '\x22' :: s ++ ['\x22']

def encPair (k v : LC) : LC := encStr k ++ ':' :: ' ' :: encStr v

def encPairsList : List (LC × LC) → LC
  | [] => []
  | [(k, v)] => encPair k v
  | (k, v) :: rest => encPair k v ++ ',' :: ' ' :: encPairsList rest

def encObj (ps : List (LC × LC)) : LC := '\x7b' :: encPairsList ps ++ ['\x7d']

/-- The serialized rule object carrying the four required fields. -/
def encodeRuleJson (name desc sev sql : LC) : LC :=
  encObj [("rule_name".data, name), ("rule_description".data, desc),
          ("severity".data, sev), ("rule_text".data, sql)]

/-! ## create_rule.py: RuleGeneratorTool -/

def requiredFields : List LC :=
  ["rule_name".data, "rule_description".data, "severity".data, "rule_text".data]

def severityValues : List JVal :=
  [.str "HIGH".data, .str "MEDIUM".data, .str "LOW".data]

/-- Modelled stand-in for the message text of the `json.JSONDecodeError`
raised by `json.loads` (no claim inspects its content). -/
def jsonDecodeErrMsg : LC := "Expecting value".data

/-- Modelled stand-in for the message of the `TypeError` Python would
raise when `rule_data[\x22rule_text\x22]` is not a string (unreachable for
objects produced by `jsonParse`, whose values are all strings). -/
def ruleTextTypeMsg : LC := "argument is not a string".data

def missingFieldsMsg : LC := "Missing required fields in rule data".data

def noJsonMsg : LC := "Could not find JSON data in response".data

/-- The brace-pair extraction and decode of `RuleGeneratorTool._run`
(create_rule.py lines 104-109 and the `raise ValueError` of line 149):
take the substring from the first `\x7b` to the last `\x7d` and decode it;
a raised `JSONDecodeError` or absent brace pair becomes `.error`. -/
def extractRuleJson (content : LC) : Except LC JObj :=
  if content.contains '\x7b' && content.contains '\x7d' then
    let st := (firstIdxChar '\x7b' content).getD 0
    let en := (lastIdxChar '\x7d' content).getD 0
    match jsonParse (sliceL content st (en + 1)) with
    | some o => .ok o
    | none => .error jsonDecodeErrMsg
  else .error noJsonMsg

/-- Severity validation (create_rule.py lines 117-118): a value outside
HIGH/MEDIUM/LOW is replaced by MEDIUM. -/
def coerceSeverity (v : JVal) : JVal :=
  if v ∈ severityValues then v else .str "MEDIUM".data

/-- The in-place severity overwrite `rule_data[\x22severity\x22] = \x22MEDIUM\x22`
guarded by the membership test. -/
def coerceSeverityField (rd : JObj) : JObj :=
  if (lookupField rd "severity".data).getD (.str []) ∈ severityValues then rd
  else setField rd "severity".data (.str "MEDIUM".data)

/-- SQL-field comment stripping (create_rule.py lines 121-125): when the
field holds both block-comment markers, drop everything through the first
closing marker and strip the remainder. -/
def stripSqlComments (sql : LC) : LC :=
  if containsSub "/*".data sql && containsSub "*/".data sql then
    stripWsL (sql.drop ((findSub "*/".data sql).getD 0 + 2))
  else sql

/-- A row of the `Rules` table as inserted by create_rule.py lines
128-140. -/
structure StoredRule where
  rule_name : JVal
  rule_description : JVal
  rule_text : LC
  severity : JVal
deriving DecidableEq

abbrev RuleStore := List StoredRule

/-- The fixed error record returned by the `except` branch of
`RuleGeneratorTool._run` (create_rule.py lines 152-158). -/
def errorRuleData (e : LC) : JObj :=
  [("rule_name".data, .str "Error".data),
   ("rule_description".data, .str e),
   ("severity".data, .str "HIGH".data),
   ("rule_text".data, .str "Error generating rule".data),
   ("error".data, .bool true)]

/-- The body of `RuleGeneratorTool._run` after a successful JSON decode
(create_rule.py lines 111-147): required-field validation, severity
coercion, comment stripping, the INSERT (modelled as appending to the
store, with `lastrowid` the autoincrement position), and the response
updates `rule_id` / `rule_text`. A raised `ValueError` is `.error`. -/
def processRuleData (store : RuleStore) (rd : JObj) :
    Except LC (JObj × RuleStore) :=
  if requiredFields.all (fun f => containsKey rd f) then
    let rd1 := coerceSeverityField rd
    match lookupField rd1 "rule_text".data with
    | some (.str sql) =>
      let sql1 := stripSqlComments sql
      let newRule : StoredRule :=
        ⟨(lookupField rd1 "rule_name".data).getD (.str []),
         (lookupField rd1 "rule_description".data).getD (.str []),
         sql1,
         (lookupField rd1 "severity".data).getD (.str [])⟩
      let store1 := store ++ [newRule]
      let rd2 := setField (setField rd1 "rule_id".data (.num store1.length))
        "rule_text".data (.str sql1)
      .ok (rd2, store1)
    | _ => .error ruleTextTypeMsg
  else .error missingFieldsMsg

/-- `RuleGeneratorTool._run` from the model response onward (create_rule.py
lines 102-158): decode, process and insert, with every raised error caught
and rendered as the fixed error record; returns the response record and
the new store state. -/
def runRuleGenerator (content : LC) (store : RuleStore) : JObj × RuleStore :=
  match extractRuleJson content with
  | .ok rd =>
    match processRuleData store rd with
    | .ok (rd2, store1) => (rd2, store1)
    | .error e => (errorRuleData e, store)
  | .error e => (errorRuleData e, store)

/-- The missing-field diagnostic of the CLI fallback parser
(create_rule.py lines 282-283). -/
def missingFields (rd : JObj) : List LC :=
  requiredFields.filter (fun f => !containsKey rd f)

/-- The rule row inserted for a decoded record, after severity coercion
and comment stripping (spec side, naming the row built by
`processRuleData`). -/
def insertedRule (rd : JObj) (sql : LC) : StoredRule :=
  ⟨(lookupField (coerceSeverityField rd) "rule_name".data).getD (.str []),
   (lookupField (coerceSeverityField rd) "rule_description".data).getD (.str []),
   stripSqlComments sql,
   (lookupField (coerceSeverityField rd) "severity".data).getD (.str [])⟩

/-- A decoded rule record carrying exactly the four required fields (spec
side, the image of `encodeRuleJson` under the decoder). -/
def rdFour (name desc sev sql : LC) : JObj :=
  [("rule_name".data, .str name), ("rule_description".data, .str desc),
   ("severity".data, .str sev), ("rule_text".data, .str sql)]

/-! ## trading_agents.py: NL2SQLTool response parsing -/

/-- Models Python `content.split(\x60\x60\x60)` (split on the triple-backtick
fence, leftmost non-overlapping). -/
def splitTicks : LC → List LC
  | [] => [[]]
  | [c1] => [[c1]]
  | [c1, c2] => [[c1, c2]]
  | c1 :: c2 :: c3 :: rest =>
    if c1 = '\x60' && c2 = '\x60' && c3 = '\x60' then
      [] :: splitTicks rest
    else
      match splitTicks (c2 :: c3 :: rest) with
      | [] => [[c1]]
      | p :: ps => (c1 :: p) :: ps

/-- The keyword test of the fenced-block scan (trading_agents.py line 103):
`\x22SELECT\x22 in part.upper() or \x22WITH\x22 in part.upper()`. -/
def hasQueryKeyword (part : LC) : Bool :=
  containsSub "SELECT".data (upperL part) || containsSub "WITH".data (upperL part)

/-- The return value of `NL2SQLTool._run`: either the single-key
`sql_query` dict, or the dict returned verbatim by the bare
`json.loads(response.content)` of line 109. -/
inductive NLResult where
  | sqlQuery (s : LC)
  | jsonDict (o : JObj)
deriving DecidableEq

/-- The final fallback of `NL2SQLTool._run` (trading_agents.py lines
113-119): strip the response, drop one pair of wrapping double quotes. -/
def nl2sqlPlain (content : LC) : NLResult :=
  let sq := stripWsL content
  if sq.head? = some '\x22' && sq.getLast? = some '\x22' then
    .sqlQuery ((sq.drop 1).dropLast)
  else .sqlQuery sq

/-- The JSON attempt of `NL2SQLTool._run` (trading_agents.py lines
106-111), falling through to the plain-string fallback on decode failure. -/
def nl2sqlFallthrough (content : LC) : NLResult :=
  if content.contains '\x7b' && content.contains '\x7d' then
    match jsonParse content with
    | some o => .jsonDict o
    | none => nl2sqlPlain content
  else nl2sqlPlain content

/-- `NL2SQLTool._run` from the model response onward (trading_agents.py
lines 97-124): when the response carries a fence, return the first
`split(\x60\x60\x60)` segment containing a query keyword, stripped of
whitespace, then of leading/trailing characters from the set
`\x7b s, q, l \x7d`, then of whitespace again; otherwise fall through. -/
def nl2sqlRun (content : LC) : NLResult :=
  if containsSub ['\x60', '\x60', '\x60'] content then
    match (splitTicks content).find? hasQueryKeyword with
    | some part => .sqlQuery (stripWsL (stripSetL "sql".data (stripWsL part)))
    | none => nl2sqlFallthrough content
  else nl2sqlFallthrough content

/-! ## Concrete inputs used by witnesses and counterexamples -/

/-- A database oracle that fails on the SQL text `"bad"` and returns an
empty result set otherwise. -/
def dbW : DbExec := fun s => if s = "bad" then .error "db down" else .ok []

def ruleW1 : DQRule := ⟨1, "r1", "d1", "bad", "HIGH"⟩

def ruleW2 : DQRule := ⟨2, "r2", "d2", "SELECT 1", "LOW"⟩

/-- An empty result set that still has two columns (e.g. a two-column
SELECT matching no rows). -/
def dfEmptyTwoCols : PyDataFrame := ⟨2, []⟩

/-- A model response whose JSON object lacks the required `rule_text`
field. -/
def contentMissingField : LC :=
  "\x7b\x22rule_name\x22: \x22A\x22, \x22rule_description\x22: \x22B\x22, \x22severity\x22: \x22HIGH\x22\x7d".data

/-- A model response wrapping well-formed SQL in a fenced code block with
the lowercase `sql` language tag. -/
def fencedContent : LC :=
  "\x60\x60\x60sql\nSELECT * FROM trades\n\x60\x60\x60".data

/-- A model response with no brace pair at all. -/
def contentNoJson : LC := "no braces at all".data

/-- A decoded rule record whose severity is outside HIGH/MEDIUM/LOW. -/
def rdBadSev : JObj := rdFour "N".data "D".data "CRITICAL".data "SELECT 1".data

def dbC9 : String → Except String PyDataFrame := fun _ => .ok dfEmptyTwoCols

/-- A one-column, three-row result set. -/
def dfThreeRows : PyDataFrame := ⟨1, [["a"], ["b"], ["c"]]⟩

def dbC9b : String → Except String PyDataFrame := fun _ => .ok dfThreeRows

/-! ## Helper lemmas for the evaluator -/

theorem evalLoop_eq_map (db : DbExec) (rules : List DQRule) :
    evalLoop db rules = rules.map (classifyRule db) := by
  induction rules with
  | nil => rfl
  | cons r rest ih => simp [evalLoop, ih]

theorem outcome_clean_or_error_iff (o : Outcome) :
    (o.isCleanB || o.isExecErrorB) = !o.isViolatedB := by
  cases o <;> rfl

/-- C1 spec-side count: the i-th outcome is `violated` exactly when the
i-th rule has a non-empty result set. -/
theorem classify_violated_iff (db : DbExec) (r : DQRule) :
    (classifyRule db r).isViolatedB = ruleHasViolations db r := by
  unfold classifyRule ruleHasViolations
  cases db r.rule_text with
  | ok rows => cases rows <;> simp [Outcome.isViolatedB]
  | error e => rfl

theorem countP_not_eq {α : Type} (p : α → Bool) (l : List α) :
    l.countP (fun a => !p a) = l.length - l.countP p := by
  induction l with
  | nil => simp
  | cons a l ih =>
    have hle := List.countP_le_length (p := p) (l := l)
    by_cases h : p a <;> simp [List.countP_cons, h, ih] <;> omega

/-- C1: the evaluator produces exactly one outcome per loaded rule, in load
order; zero rows → CLEAN, one or more rows → VIOLATED with the rows
attached, database error → EXEC_ERROR with the message attached; for N
matching rules of which K return non-empty result sets the report has
exactly K VIOLATED entries and N−K CLEAN/EXEC_ERROR entries, and the
report joins the rendered outcomes in that order. -/
theorem rule_evaluator_report (showT : List Row → String) (db : DbExec)
    (rules : List DQRule) (hne : rules ≠ []) :
    (evalLoop db rules).length = rules.length
    ∧ (∀ i : Nat, (evalLoop db rules).get? i = (rules.get? i).map (classifyRule db))
    ∧ (evalLoop db rules).countP Outcome.isViolatedB
        = rules.countP (ruleHasViolations db)
    ∧ (evalLoop db rules).countP (fun o => o.isCleanB || o.isExecErrorB)
        = rules.length - rules.countP (ruleHasViolations db)
    ∧ ruleExecutionRun showT db rules
        = String.intercalate "\n" ((evalLoop db rules).map (renderOutcome showT)) := by
  have hmap := evalLoop_eq_map db rules
  have hK : (evalLoop db rules).countP Outcome.isViolatedB
      = rules.countP (ruleHasViolations db) := by
    rw [hmap, List.countP_map]
    exact List.countP_congr fun r _ => by
      simpa using classify_violated_iff db r
  refine ⟨by rw [hmap]; simp, ?_, hK, ?_, ?_⟩
  · intro i
    rw [hmap]
    exact List.get?_map _ _ _
  · have hcomp : (evalLoop db rules).countP (fun o => o.isCleanB || o.isExecErrorB)
        = (evalLoop db rules).countP (fun o => !o.isViolatedB) :=
      List.countP_congr fun o _ => by rw [outcome_clean_or_error_iff]
    rw [hcomp, countP_not_eq, hK, hmap]
    simp
  · unfold ruleExecutionRun
    rw [if_neg (by simpa using hne)]
    have hvs : ((evalLoop db rules).map (renderOutcome showT)).isEmpty = false := by
      rw [hmap]
      cases rules with
      | nil => exact absurd rfl hne
      | cons r rest => simp
    simp [hvs]

theorem rule_evaluator_report_witness :
    ([ruleW2] ≠ ([] : List DQRule))
    ∧ (evalLoop dbW [ruleW2]).countP Outcome.isViolatedB
        = [ruleW2].countP (ruleHasViolations dbW) := by
  refine ⟨List.cons_ne_nil _ _, ?_⟩
  exact (rule_evaluator_report (fun _ => "") dbW [ruleW2]
    (List.cons_ne_nil _ _)).2.2.1

/-- C2: a database error raised by one rule's SQL never aborts the batch:
the failing rule is recorded as an EXEC_ERROR outcome carrying the error
message, and every rule in the batch (before or after it) still receives
its own outcome. -/
theorem rule_error_isolation (db : DbExec) (rules : List DQRule) (j : Nat)
    (rj : DQRule) (e : String) (hj : rules.get? j = some rj)
    (herr : db rj.rule_text = .error e) :
    (evalLoop db rules).get? j = some (.execError rj e)
    ∧ ∀ i ri, rules.get? i = some ri →
        (evalLoop db rules).get? i = some (classifyRule db ri) := by
  rw [evalLoop_eq_map]
  constructor
  · rw [List.get?_map, hj]
    simp [classifyRule, herr]
  · intro i ri hi
    rw [List.get?_map, hi]
    rfl

theorem rule_error_isolation_witness :
    ([ruleW1, ruleW2].get? 0 = some ruleW1
      ∧ dbW ruleW1.rule_text = .error "db down")
    ∧ (evalLoop dbW [ruleW1, ruleW2]).get? 0 = some (.execError ruleW1 "db down")
    ∧ (evalLoop dbW [ruleW1, ruleW2]).get? 1 = some (classifyRule dbW ruleW2) := by
  refine ⟨⟨rfl, rfl⟩, ?_, ?_⟩
  · exact (rule_error_isolation dbW [ruleW1, ruleW2] 0 ruleW1 "db down" rfl rfl).1
  · exact (rule_error_isolation dbW [ruleW1, ruleW2] 0 ruleW1 "db down" rfl rfl).2
      1 ruleW2 rfl

/-- C3: for every input SQL string the Query Executor's run operation
returns a value — either the rendered result set or a textual error
message built from the caught database error — and never propagates the
raised exception: the outcome is exactly one of the two cases of the
database oracle. -/
theorem sql_executor_never_raises {α : Type} (render : α → String)
    (db : String → Except String α) (q : String) :
    (∃ res, db q = .ok res ∧ sqlExecutionRun render db q = render res)
    ∨ (∃ e, db q = .error e
        ∧ sqlExecutionRun render db q = "Error executing query: " ++ e) := by
  cases h : db q with
  | ok res => exact .inl ⟨res, rfl, by simp [sqlExecutionRun, h]⟩
  | error e => exact .inr ⟨e, rfl, by simp [sqlExecutionRun, h]⟩

/-- C9 counterexample: an ad-hoc query that succeeds with a two-column but
zero-row result set is presented as scalar/text (`is_table = false`), while
the claim's heuristic (more than one column or more than one row) demands
tabular presentation. -/
theorem tabular_heuristic_counterexample :
    dbC9 "SELECT a, b FROM trades WHERE 1 = 0" = .ok dfEmptyTwoCols
    ∧ dfEmptyTwoCols.cols > 1
    ∧ (query_database dbC9 "agent text" "SELECT a, b FROM trades WHERE 1 = 0").is_table
        = false := by
  exact ⟨rfl, by decide, rfl⟩

/-- C9 amended: a successfully executed ad-hoc query is presented as
tabular if and only if the result set is non-empty and has more than one
column, or has more than one row; in particular an empty result set is
always presented as scalar/text, whatever its column count. -/
theorem tabular_heuristic_amended (db : String → Except String PyDataFrame)
    (agentResult q : String) (df : PyDataFrame) (h : db q = .ok df) :
    (query_database db agentResult q).is_table = true
      ↔ ((1 ≤ df.rows.length ∧ 1 < df.cols) ∨ 1 < df.rows.length) := by
  simp only [query_database, h]
  by_cases hc : ((!df.emptyB && decide (df.cols > 1)) || decide (df.rows.length > 1)) = true
  · rw [if_pos hc]
    simp only [PyDataFrame.emptyB, Bool.or_eq_true, Bool.and_eq_true,
      Bool.not_eq_true', Bool.or_eq_false_iff, decide_eq_true_eq,
      List.isEmpty_eq_false, beq_eq_false_iff_ne] at hc
    simp only [true_iff]
    rcases hc with ⟨⟨hne, _⟩, hcols⟩ | hrows
    · exact .inl ⟨List.length_pos_of_ne_nil hne, hcols⟩
    · exact .inr hrows
  · rw [if_neg hc]
    simp only [Bool.or_eq_true, Bool.and_eq_true, Bool.not_eq_true',
      decide_eq_true_eq, not_or, not_and, PyDataFrame.emptyB,
      Bool.or_eq_false_iff, List.isEmpty_eq_false, beq_eq_false_iff_ne] at hc
    simp only [Bool.false_eq_true, false_iff, not_or, not_and, not_lt]
    obtain ⟨h1, h2⟩ := hc
    constructor
    · intro hlen
      by_contra hcols
      push_neg at hcols
      have hne : df.rows ≠ [] := by
        intro hnil
        rw [hnil] at hlen
        simp at hlen
      have hc0 : df.cols ≠ 0 := by omega
      exact absurd hcols (by simpa using h1 ⟨hne, hc0⟩)
    · omega

theorem tabular_heuristic_amended_witness :
    dbC9b "SELECT trader FROM trades" = .ok dfThreeRows
    ∧ ((query_database dbC9b "agent" "SELECT trader FROM trades").is_table = true
        ↔ ((1 ≤ dfThreeRows.rows.length ∧ 1 < dfThreeRows.cols)
            ∨ 1 < dfThreeRows.rows.length)) :=
  ⟨rfl, tabular_heuristic_amended dbC9b "agent" "SELECT trader FROM trades"
    dfThreeRows rfl⟩

/-! ## String-helper lemmas -/

theorem startsWithL_append (pat b : LC) : startsWithL pat (pat ++ b) = true := by
  induction pat with
  | nil => rfl
  | cons p ps ih => simp [startsWithL, ih]

theorem containsSub_nil (s : LC) : containsSub [] s = true := by
  cases s <;> simp [containsSub, startsWithL, List.isEmpty]

theorem containsSub_append_self (pat a b : LC) :
    containsSub pat (a ++ pat ++ b) = true := by
  induction a with
  | nil =>
    cases hp : pat with
    | nil => simpa [hp] using containsSub_nil b
    | cons p ps =>
      simp only [List.nil_append, List.cons_append, containsSub]
      have := startsWithL_append (p :: ps) b
      simp only [List.cons_append] at this
      simp [this]
  | cons c a' ih =>
    rw [show ((c :: a') ++ pat ++ b) = c :: (a' ++ pat ++ b) from by simp]
    rw [containsSub, ih, Bool.or_true]

theorem firstIdxChar_append (ch : Char) (a b : LC) (h : ch ∉ a) :
    firstIdxChar ch (a ++ ch :: b) = some a.length := by
  induction a with
  | nil => simp [firstIdxChar]
  | cons c a' ih =>
    have hc : ¬ c = ch := fun hcc => h (hcc ▸ List.mem_cons_self c a')
    have ha' : ch ∉ a' := fun hm => h (List.mem_cons_of_mem c hm)
    simp [firstIdxChar, hc, ih ha']

theorem lastIdxChar_eq_none (ch : Char) (s : LC) (h : ch ∉ s) :
    lastIdxChar ch s = none := by
  induction s with
  | nil => rfl
  | cons c rest ih =>
    have hc : ¬ c = ch := fun hcc => h (hcc ▸ List.mem_cons_self c rest)
    have hr : ch ∉ rest := fun hm => h (List.mem_cons_of_mem c hm)
    simp [lastIdxChar, ih hr, hc]

theorem lastIdxChar_append (ch : Char) (a b : LC) (h : ch ∉ b) :
    lastIdxChar ch (a ++ ch :: b) = some a.length := by
  induction a with
  | nil => simp [lastIdxChar, lastIdxChar_eq_none ch b h]
  | cons c a' ih => simp [lastIdxChar, ih]

theorem skipWsL_cons_neg (c : Char) (s : LC) (h : isJsonWs c = false) :
    skipWsL (c :: s) = c :: s := by
  simp [skipWsL, List.dropWhile_cons, h]

theorem skipWsL_cons_pos (c : Char) (s : LC) (h : isJsonWs c = true) :
    skipWsL (c :: s) = skipWsL s := by
  simp [skipWsL, List.dropWhile_cons, h]

/-! ## JSON round-trip lemmas -/

theorem scanStr_append (v rest : LC) (hv : '\x22' ∉ v) :
    scanStr (v ++ '\x22' :: rest) = some (v, rest) := by
  induction v with
  | nil => simp [scanStr]
  | cons c v' ih =>
    have hc : ¬ c = '\x22' := fun hcc => hv (hcc ▸ List.mem_cons_self c v')
    have hv' : '\x22' ∉ v' := fun hm => hv (List.mem_cons_of_mem c hm)
    simp [scanStr, hc, ih hv']

theorem parseStrLit_encStr (v rest : LC) (hv : '\x22' ∉ v) :
    parseStrLit (encStr v ++ rest) = some (v, rest) := by
  simp [encStr, parseStrLit, scanStr_append v rest hv]

theorem parsePairs_cons_ws (fuel : Nat) (c : Char) (s : LC) (h : isJsonWs c = true) :
    parsePairs fuel (c :: s) = parsePairs fuel s := by
  cases fuel with
  | zero => rfl
  | succ f => simp [parsePairs, skipWsL_cons_pos c s h]

@[simp] theorem skipWsL_nil_eq : skipWsL [] = [] := rfl

@[simp] theorem skipWsL_quote_cons (s : LC) : skipWsL ('\x22' :: s) = '\x22' :: s :=
  skipWsL_cons_neg _ _ (by decide)

@[simp] theorem skipWsL_colon_cons (s : LC) : skipWsL (':' :: s) = ':' :: s :=
  skipWsL_cons_neg _ _ (by decide)

@[simp] theorem skipWsL_comma_cons (s : LC) : skipWsL (',' :: s) = ',' :: s :=
  skipWsL_cons_neg _ _ (by decide)

@[simp] theorem skipWsL_rbrace_cons (s : LC) : skipWsL ('\x7d' :: s) = '\x7d' :: s :=
  skipWsL_cons_neg _ _ (by decide)

@[simp] theorem skipWsL_space_cons (s : LC) : skipWsL (' ' :: s) = skipWsL s :=
  skipWsL_cons_pos _ _ (by decide)

theorem parseStrLit_shape (k R : LC) (hk : '\x22' ∉ k) :
    parseStrLit ('\x22' :: (k ++ '\x22' :: R)) = some (k, R) := by
  have h := parseStrLit_encStr k R hk
  simpa [encStr] using h

theorem parsePairs_enc (ps : List (LC × LC)) : ∀ (fuel : Nat), ps ≠ [] →
    ps.length ≤ fuel →
    (∀ p ∈ ps, '\x22' ∉ p.1 ∧ '\x22' ∉ p.2) →
    parsePairs fuel (encPairsList ps ++ ['\x7d'])
      = some (ps.map (fun p => (p.1, JVal.str p.2)), []) := by
  induction ps with
  | nil => intro fuel hne; exact absurd rfl hne
  | cons p ps ih =>
    intro fuel _ hf hclean
    obtain ⟨k, v⟩ := p
    have hk : '\x22' ∉ k := (hclean (k, v) (by simp)).1
    have hv : '\x22' ∉ v := (hclean (k, v) (by simp)).2
    cases fuel with
    | zero => simp at hf
    | succ f =>
      cases ps with
      | nil =>
        have hshape : encPairsList [(k, v)] ++ ['\x7d']
            = '\x22' :: (k ++ '\x22' :: ':' :: ' ' ::
                ('\x22' :: (v ++ '\x22' :: ['\x7d']))) := by
          simp [encPairsList, encPair, encStr]
        rw [hshape]
        simp [parsePairs, parseStrLit_shape k _ hk, parseStrLit_shape v _ hv]
      | cons q qs =>
        have hshape : encPairsList ((k, v) :: q :: qs) ++ ['\x7d']
            = '\x22' :: (k ++ '\x22' :: ':' :: ' ' ::
                ('\x22' :: (v ++ '\x22' :: ',' :: ' ' ::
                  (encPairsList (q :: qs) ++ ['\x7d'])))) := by
          simp [encPairsList, encPair, encStr]
        rw [hshape]
        have hrec : parsePairs f (encPairsList (q :: qs) ++ ['\x7d'])
            = some ((q :: qs).map (fun p => (p.1, JVal.str p.2)), []) := by
          refine ih f (by simp) ?_ ?_
          · simpa using Nat.le_of_succ_le_succ hf
          · intro p hp
            exact hclean p (List.mem_cons_of_mem _ hp)
        have hws : parsePairs f (' ' :: (encPairsList (q :: qs) ++ ['\x7d']))
            = parsePairs f (encPairsList (q :: qs) ++ ['\x7d']) :=
          parsePairs_cons_ws f ' ' _ (by decide)
        simp [parsePairs, parseStrLit_shape k _ hk, parseStrLit_shape v _ hv,
          hws, hrec]

theorem encPairsList_length_ge (ps : List (LC × LC)) :
    ps.length ≤ (encPairsList ps).length := by
  induction ps with
  | nil => simp [encPairsList]
  | cons p ps ih =>
    obtain ⟨k, v⟩ := p
    cases ps with
    | nil => simp [encPairsList, encPair, encStr]
    | cons q qs =>
      have h2 : encPairsList ((k, v) :: q :: qs)
          = encPair k v ++ ',' :: ' ' :: encPairsList (q :: qs) := rfl
      rw [h2]
      simp only [List.length_cons, List.length_append, encPair, encStr]
      simp only [List.length_cons] at ih ⊢
      omega

theorem encPairsList_head (p : LC × LC) (ps : List (LC × LC)) :
    ∃ t, encPairsList (p :: ps) = '\x22' :: t := by
  obtain ⟨k, v⟩ := p
  cases ps with
  | nil =>
    exact ⟨k ++ '\x22' :: ':' :: ' ' :: '\x22' :: (v ++ ['\x22']),
      by simp [encPairsList, encPair, encStr]⟩
  | cons q qs =>
    exact ⟨k ++ '\x22' :: ':' :: ' ' :: '\x22' ::
        (v ++ '\x22' :: ',' :: ' ' :: encPairsList (q :: qs)),
      by simp [encPairsList, encPair, encStr]⟩

theorem jsonParse_enc (ps : List (LC × LC)) (hne : ps ≠ [])
    (hclean : ∀ p ∈ ps, '\x22' ∉ p.1 ∧ '\x22' ∉ p.2) :
    jsonParse (encObj ps) = some (ps.map (fun p => (p.1, JVal.str p.2))) := by
  obtain ⟨p, ps', rfl⟩ : ∃ p ps', ps = p :: ps' := by
    cases ps with
    | nil => exact absurd rfl hne
    | cons p ps' => exact ⟨p, ps', rfl⟩
  obtain ⟨t, ht⟩ := encPairsList_head p ps'
  have hshape : encObj (p :: ps')
      = '\x7b' :: (encPairsList (p :: ps') ++ ['\x7d']) := by
    simp [encObj]
  have hfuel : (p :: ps').length ≤ (encObj (p :: ps')).length + 1 := by
    have h1 := encPairsList_length_ge (p :: ps')
    simp only [encObj, List.length_cons, List.length_append] at h1 ⊢
    omega
  have hpp := parsePairs_enc (p :: ps') ((encObj (p :: ps')).length + 1)
    (by simp) hfuel hclean
  have hX : encPairsList (p :: ps') ++ ['\x7d'] = '\x22' :: (t ++ ['\x7d']) := by
    rw [ht]; simp
  rw [hshape] at hpp ⊢
  rw [hX] at hpp ⊢
  unfold jsonParse
  rw [skipWsL_cons_neg '\x7b' _ (by decide)]
  simp only [List.length_cons, List.length_append, List.length_singleton,
    List.length_nil] at hpp
  simp [hpp]

theorem encObj_shape (ps : List (LC × LC)) :
    encObj ps = '\x7b' :: (encPairsList ps ++ ['\x7d']) := by
  simp [encObj]

/-- The brace-pair extraction recovers exactly the serialized object when
the text before it has no opening brace and the text after it has no
closing brace. -/
theorem extractRuleJson_enc (pre post : LC) (ps : List (LC × LC))
    (hne : ps ≠ []) (hclean : ∀ p ∈ ps, '\x22' ∉ p.1 ∧ '\x22' ∉ p.2)
    (hpre : '\x7b' ∉ pre) (hpost : '\x7d' ∉ post) :
    extractRuleJson (pre ++ encObj ps ++ post)
      = .ok (ps.map (fun p => (p.1, JVal.str p.2))) := by
  have hsplit : pre ++ encObj ps ++ post
      = pre ++ '\x7b' :: ((encPairsList ps ++ ['\x7d']) ++ post) := by
    rw [encObj_shape]; simp
  have hsplit2 : pre ++ encObj ps ++ post
      = (pre ++ '\x7b' :: encPairsList ps) ++ '\x7d' :: post := by
    rw [encObj_shape]; simp
  have hcontainsO : (pre ++ encObj ps ++ post).contains '\x7b' = true := by
    refine List.elem_eq_true_of_mem ?_
    rw [hsplit]
    exact List.mem_append_right _ (List.mem_cons_self _ _)
  have hcontainsC : (pre ++ encObj ps ++ post).contains '\x7d' = true := by
    refine List.elem_eq_true_of_mem ?_
    rw [hsplit2]
    exact List.mem_append_right _ (List.mem_cons_self _ _)
  have hfirst : firstIdxChar '\x7b' (pre ++ encObj ps ++ post) = some pre.length := by
    rw [hsplit]
    exact firstIdxChar_append _ _ _ hpre
  have hlast : lastIdxChar '\x7d' (pre ++ encObj ps ++ post)
      = some ((pre ++ '\x7b' :: encPairsList ps).length) := by
    rw [hsplit2]
    exact lastIdxChar_append '\x7d' (pre ++ '\x7b' :: encPairsList ps) post hpost
  have hslice : sliceL (pre ++ encObj ps ++ post) pre.length
      ((pre ++ '\x7b' :: encPairsList ps).length + 1) = encObj ps := by
    unfold sliceL
    rw [show pre ++ encObj ps ++ post = pre ++ (encObj ps ++ post) from by simp]
    rw [List.drop_left]
    rw [show (pre ++ '\x7b' :: encPairsList ps).length + 1 - pre.length
        = (encObj ps).length from by
      rw [encObj_shape]
      simp only [List.length_append, List.length_cons, List.length_nil,
        List.length_singleton]
      omega]
    exact List.take_left _ _
  unfold extractRuleJson
  rw [hcontainsO, hcontainsC, hfirst, hlast]
  simp only [Bool.and_self, if_true, Option.getD_some]
  rw [hslice, jsonParse_enc ps hne hclean]

/-! ## lookupField and setField lemmas -/

theorem lookupField_cons_eq (k : LC) (v : JVal) (rest : JObj) :
    lookupField ((k, v) :: rest) k = some v := by
  simp [lookupField]

theorem lookupField_cons_ne (k1 k : LC) (v : JVal) (rest : JObj)
    (h : k1 ≠ k) : lookupField ((k1, v) :: rest) k = lookupField rest k := by
  simp [lookupField, h]

theorem lookupField_setField_self (rd : JObj) (k : LC) (v : JVal) :
    lookupField (setField rd k v) k = some v := by
  induction rd with
  | nil => simp [setField, lookupField]
  | cons p rest ih =>
    obtain ⟨k1, v1⟩ := p
    by_cases h : k1 = k
    · simp [setField, h, lookupField]
    · simp [setField, h, lookupField, ih]

theorem lookupField_setField_ne (rd : JObj) (k1 k : LC) (v : JVal)
    (h : k1 ≠ k) : lookupField (setField rd k1 v) k = lookupField rd k := by
  induction rd with
  | nil => simp [setField, lookupField, h]
  | cons p rest ih =>
    obtain ⟨k2, v2⟩ := p
    by_cases h2 : k2 = k1
    · subst h2
      simp [setField, lookupField, h]
    · by_cases h3 : k2 = k
      · subst h3
        simp [setField, h2, lookupField]
      · simp [setField, h2, lookupField, h3, ih]

theorem coerceSeverity_mem (v : JVal) : coerceSeverity v ∈ severityValues := by
  unfold coerceSeverity
  by_cases hc : v ∈ severityValues
  · rwa [if_pos hc]
  · rw [if_neg hc]
    simp [severityValues]

theorem coerceSeverityField_lookup_ne (rd : JObj) (k : LC)
    (h : "severity".data ≠ k) :
    lookupField (coerceSeverityField rd) k = lookupField rd k := by
  by_cases hc : (lookupField rd "severity".data).getD (.str []) ∈ severityValues
  · rw [coerceSeverityField, if_pos hc]
  · rw [coerceSeverityField, if_neg hc]
    exact lookupField_setField_ne rd _ k _ h

theorem coerceSeverityField_lookup_sev (rd : JObj) (sev : LC)
    (hsev : lookupField rd "severity".data = some (.str sev)) :
    lookupField (coerceSeverityField rd) "severity".data
      = some (coerceSeverity (.str sev)) := by
  unfold coerceSeverityField coerceSeverity
  rw [hsev]
  simp only [Option.getD_some]
  by_cases hc : JVal.str sev ∈ severityValues
  · rw [if_pos hc, if_pos hc, hsev]
  · rw [if_neg hc, if_neg hc]
    exact lookupField_setField_self rd _ _

theorem processRuleData_eq_ok (store : RuleStore) (rd : JObj) (sql : LC)
    (hall : (requiredFields.all fun f => containsKey rd f) = true)
    (hsql : lookupField (coerceSeverityField rd) "rule_text".data
      = some (.str sql)) :
    processRuleData store rd = .ok
      (setField (setField (coerceSeverityField rd) "rule_id".data
          (.num (store.length + 1)))
        "rule_text".data (.str (stripSqlComments sql)),
       store ++ [insertedRule rd sql]) := by
  simp only [processRuleData]
  rw [if_pos hall, hsql]
  simp [insertedRule, List.length_append]

theorem processRuleData_ok_inv (store : RuleStore) (rd rd2 : JObj)
    (store1 : RuleStore) (h : processRuleData store rd = .ok (rd2, store1)) :
    (requiredFields.all fun f => containsKey rd f) = true
    ∧ ∃ sql, lookupField (coerceSeverityField rd) "rule_text".data
          = some (.str sql)
        ∧ store1 = store ++ [insertedRule rd sql] := by
  unfold processRuleData at h
  by_cases hall : (requiredFields.all fun f => containsKey rd f) = true
  · rw [if_pos hall] at h
    dsimp only at h
    refine ⟨hall, ?_⟩
    cases hlook : lookupField (coerceSeverityField rd) "rule_text".data with
    | none => rw [hlook] at h; simp at h
    | some v =>
      cases v with
      | str sql =>
        rw [hlook] at h
        simp only [Except.ok.injEq, Prod.mk.injEq] at h
        exact ⟨sql, rfl, by rw [← h.2]; simp [insertedRule]⟩
      | num n => rw [hlook] at h; simp at h
      | bool b => rw [hlook] at h; simp at h
  · rw [if_neg hall] at h
    simp at h

theorem findSub_marker (a b : LC) (ha : containsSub ['*', '/'] a = false) :
    findSub ['*', '/'] (a ++ '*' :: '/' :: b) = some a.length := by
  induction a with
  | nil =>
    have hs : startsWithL ['*', '/'] ('*' :: '/' :: b) = true := by
      simp [startsWithL]
    simp [findSub, hs]
  | cons c a' ih =>
    have hsplit : containsSub ['*', '/'] (c :: a')
        = (startsWithL ['*', '/'] (c :: a') || containsSub ['*', '/'] a') := rfl
    rw [hsplit] at ha
    rw [Bool.or_eq_false_iff] at ha
    obtain ⟨hstart, ha'⟩ := ha
    have hcond : startsWithL ['*', '/'] (c :: (a' ++ '*' :: '/' :: b)) = false := by
      cases a' with
      | nil => simp [startsWithL]
      | cons d a'' =>
        have heq : startsWithL ['*', '/'] (c :: ((d :: a'') ++ '*' :: '/' :: b))
            = startsWithL ['*', '/'] (c :: d :: a'') := by
          simp [startsWithL]
        rw [heq]
        exact hstart
    rw [show (c :: a') ++ '*' :: '/' :: b = c :: (a' ++ '*' :: '/' :: b) from rfl]
    rw [findSub, if_neg (by simp [hcond]), ih ha']
    simp

/-- C8: for every SQL field containing both block-comment markers, the
post-processing keeps exactly the whitespace-trimmed text after the first
closing marker: for any prefix `a` with no closing marker, stripping
`a ++ \x22*/\x22 ++ b` yields `b` trimmed. -/
theorem sql_comment_strip (a b : LC)
    (ha : containsSub "*/".data a = false)
    (hopen : containsSub "/*".data (a ++ '*' :: '/' :: b) = true) :
    stripSqlComments (a ++ '*' :: '/' :: b) = stripWsL b := by
  have hstar : "*/".data = ['*', '/'] := rfl
  have hclose : containsSub "*/".data (a ++ '*' :: '/' :: b) = true := by
    rw [hstar]
    have h := containsSub_append_self ['*', '/'] a b
    simpa using h
  have hfind : findSub "*/".data (a ++ '*' :: '/' :: b) = some a.length := by
    rw [hstar] at ha ⊢
    exact findSub_marker a b ha
  unfold stripSqlComments
  rw [hopen, hclose]
  simp only [Bool.and_self, if_true]
  rw [hfind]
  simp only [Option.getD_some]
  rw [show a ++ '*' :: '/' :: b = (a ++ ['*', '/']) ++ b from by simp]
  rw [show a.length + 2 = (a ++ ['*', '/']).length from by simp]
  rw [List.drop_left]

theorem sql_comment_strip_witness :
    containsSub "*/".data "/* flag null prices ".data = false
    ∧ stripSqlComments ("/* flag null prices ".data ++ '*' :: '/' :: " SELECT 1 ".data)
        = stripWsL " SELECT 1 ".data :=
  ⟨by decide, sql_comment_strip _ _ (by decide) (by decide)⟩

theorem runRuleGenerator_ok (content : LC) (store : RuleStore) (rd rd2 : JObj)
    (store1 : RuleStore) (hext : extractRuleJson content = .ok rd)
    (hproc : processRuleData store rd = .ok (rd2, store1)) :
    runRuleGenerator content store = (rd2, store1) := by
  unfold runRuleGenerator
  rw [hext]
  dsimp only
  rw [hproc]

theorem runRuleGenerator_err_extract (content : LC) (store : RuleStore)
    (e : LC) (hext : extractRuleJson content = .error e) :
    runRuleGenerator content store = (errorRuleData e, store) := by
  unfold runRuleGenerator
  rw [hext]

theorem runRuleGenerator_err_proc (content : LC) (store : RuleStore)
    (rd : JObj) (e : LC) (hext : extractRuleJson content = .ok rd)
    (hproc : processRuleData store rd = .error e) :
    runRuleGenerator content store = (errorRuleData e, store) := by
  unfold runRuleGenerator
  rw [hext]
  dsimp only
  rw [hproc]

theorem errorRuleData_flag (e : LC) :
    lookupField (errorRuleData e) "error".data = some (.bool true) := by
  unfold errorRuleData
  rw [lookupField_cons_ne "rule_name".data "error".data _ _ (by decide)]
  rw [lookupField_cons_ne "rule_description".data "error".data _ _ (by decide)]
  rw [lookupField_cons_ne "severity".data "error".data _ _ (by decide)]
  rw [lookupField_cons_ne "rule_text".data "error".data _ _ (by decide)]
  exact lookupField_cons_eq _ _ _

theorem rdFour_lookups (name desc sev sql : LC) :
    lookupField (rdFour name desc sev sql) "rule_name".data = some (.str name)
    ∧ lookupField (rdFour name desc sev sql) "rule_description".data = some (.str desc)
    ∧ lookupField (rdFour name desc sev sql) "severity".data = some (.str sev)
    ∧ lookupField (rdFour name desc sev sql) "rule_text".data = some (.str sql) := by
  unfold rdFour
  refine ⟨lookupField_cons_eq _ _ _, ?_, ?_, ?_⟩
  · rw [lookupField_cons_ne "rule_name".data "rule_description".data _ _ (by decide)]
    exact lookupField_cons_eq _ _ _
  · rw [lookupField_cons_ne "rule_name".data "severity".data _ _ (by decide)]
    rw [lookupField_cons_ne "rule_description".data "severity".data _ _ (by decide)]
    exact lookupField_cons_eq _ _ _
  · rw [lookupField_cons_ne "rule_name".data "rule_text".data _ _ (by decide)]
    rw [lookupField_cons_ne "rule_description".data "rule_text".data _ _ (by decide)]
    rw [lookupField_cons_ne "severity".data "rule_text".data _ _ (by decide)]
    exact lookupField_cons_eq _ _ _

theorem rdFour_all (name desc sev sql : LC) :
    (requiredFields.all fun f => containsKey (rdFour name desc sev sql) f) = true := by
  have h := rdFour_lookups name desc sev sql
  simp [requiredFields, containsKey, h.1, h.2.1, h.2.2.1, h.2.2.2]

theorem coerceSeverityField_mem (rd : JObj)
    (hsome : (lookupField rd "severity".data).isSome = true) :
    ∃ v, lookupField (coerceSeverityField rd) "severity".data = some v
      ∧ v ∈ severityValues := by
  obtain ⟨v, hv⟩ := Option.isSome_iff_exists.mp hsome
  unfold coerceSeverityField
  by_cases hc : (lookupField rd "severity".data).getD (.str []) ∈ severityValues
  · rw [if_pos hc]
    refine ⟨v, hv, ?_⟩
    rw [hv] at hc
    simpa using hc
  · rw [if_neg hc]
    exact ⟨.str "MEDIUM".data, lookupField_setField_self _ _ _,
      by simp [severityValues]⟩

/-- C4: for every parsed rule record with all required fields, a severity
string outside HIGH/MEDIUM/LOW is replaced by MEDIUM and the record is
still processed successfully (no failure); a severity inside the set is
kept unchanged. -/
theorem severity_fallback_to_medium (store : RuleStore) (rd : JObj)
    (sev sql : LC)
    (hall : (requiredFields.all fun f => containsKey rd f) = true)
    (hsev : lookupField rd "severity".data = some (.str sev))
    (hsql : lookupField rd "rule_text".data = some (.str sql)) :
    (JVal.str sev ∉ severityValues →
      ∃ rd2 store1, processRuleData store rd = .ok (rd2, store1)
        ∧ lookupField rd2 "severity".data = some (.str "MEDIUM".data))
    ∧ (JVal.str sev ∈ severityValues →
      ∃ rd2 store1, processRuleData store rd = .ok (rd2, store1)
        ∧ lookupField rd2 "severity".data = some (.str sev)) := by
  have hsql' : lookupField (coerceSeverityField rd) "rule_text".data
      = some (.str sql) := by
    rw [coerceSeverityField_lookup_ne _ "rule_text".data (by decide)]
    exact hsql
  have hok := processRuleData_eq_ok store rd sql hall hsql'
  have hsev' := coerceSeverityField_lookup_sev rd sev hsev
  have hlook2 : lookupField
      (setField (setField (coerceSeverityField rd) "rule_id".data
          (.num (store.length + 1)))
        "rule_text".data (.str (stripSqlComments sql))) "severity".data
      = lookupField (coerceSeverityField rd) "severity".data := by
    rw [lookupField_setField_ne _ "rule_text".data "severity".data _ (by decide)]
    rw [lookupField_setField_ne _ "rule_id".data "severity".data _ (by decide)]
  constructor
  · intro hmem
    refine ⟨_, _, hok, ?_⟩
    rw [hlook2, hsev']
    unfold coerceSeverity
    rw [if_neg hmem]
  · intro hmem
    refine ⟨_, _, hok, ?_⟩
    rw [hlook2, hsev']
    unfold coerceSeverity
    rw [if_pos hmem]

theorem severity_fallback_to_medium_witness :
    ((requiredFields.all fun f => containsKey rdBadSev f) = true
      ∧ JVal.str "CRITICAL".data ∉ severityValues)
    ∧ ∃ rd2 store1, processRuleData [] rdBadSev = .ok (rd2, store1)
        ∧ lookupField rd2 "severity".data = some (.str "MEDIUM".data) :=
  ⟨⟨by decide, by decide⟩,
   (severity_fallback_to_medium [] rdBadSev "CRITICAL".data "SELECT 1".data
      (by decide) (by decide) (by decide)).1 (by decide)⟩

/-- C5: for every model output that wraps a well-formed serialized JSON
object carrying the four required rule fields (no stray opening brace
before it, no stray closing brace after it, field values free of quote and
backslash characters, severity already in HIGH/MEDIUM/LOW and SQL free of
block-comment markers), the rule generator extracts the substring between
the first opening brace and the last closing brace, decodes it, and
returns a record whose four field values are exactly those serialized. -/
theorem rule_json_roundtrip (store : RuleStore) (pre post name desc sev sql : LC)
    (hpre : '\x7b' ∉ pre) (hpost : '\x7d' ∉ post)
    (hname : '\x22' ∉ name) (hdesc : '\x22' ∉ desc)
    (hsevq : '\x22' ∉ sev) (hsqlq : '\x22' ∉ sql)
    (hnameB : '\x5c' ∉ name) (hdescB : '\x5c' ∉ desc)
    (hsevB : '\x5c' ∉ sev) (hsqlB : '\x5c' ∉ sql)
    (hsev : JVal.str sev ∈ severityValues)
    (hcm : (containsSub "/*".data sql && containsSub "*/".data sql) = false) :
    ∃ rd2 store1,
      runRuleGenerator (pre ++ encodeRuleJson name desc sev sql ++ post) store
        = (rd2, store1)
      ∧ lookupField rd2 "rule_name".data = some (.str name)
      ∧ lookupField rd2 "rule_description".data = some (.str desc)
      ∧ lookupField rd2 "severity".data = some (.str sev)
      ∧ lookupField rd2 "rule_text".data = some (.str sql) := by
  have hlv := rdFour_lookups name desc sev sql
  have hclean : ∀ p ∈ ([("rule_name".data, name), ("rule_description".data, desc),
      ("severity".data, sev), ("rule_text".data, sql)] : List (LC × LC)),
      '\x22' ∉ p.1 ∧ '\x22' ∉ p.2 := by
    intro p hp
    simp only [List.mem_cons, List.not_mem_nil, or_false] at hp
    rcases hp with h | h | h | h
    · subst h
      exact ⟨show '\x22' ∉ "rule_name".data by decide, hname⟩
    · subst h
      exact ⟨show '\x22' ∉ "rule_description".data by decide, hdesc⟩
    · subst h
      exact ⟨show '\x22' ∉ "severity".data by decide, hsevq⟩
    · subst h
      exact ⟨show '\x22' ∉ "rule_text".data by decide, hsqlq⟩
  have hext : extractRuleJson (pre ++ encodeRuleJson name desc sev sql ++ post)
      = .ok (rdFour name desc sev sql) := by
    have h := extractRuleJson_enc pre post
      [("rule_name".data, name), ("rule_description".data, desc),
       ("severity".data, sev), ("rule_text".data, sql)]
      (by simp) hclean hpre hpost
    simpa [encodeRuleJson, rdFour] using h
  have hsql' : lookupField (coerceSeverityField (rdFour name desc sev sql))
      "rule_text".data = some (.str sql) := by
    rw [coerceSeverityField_lookup_ne _ "rule_text".data (by decide)]
    exact hlv.2.2.2
  have hok := processRuleData_eq_ok store (rdFour name desc sev sql) sql
    (rdFour_all name desc sev sql) hsql'
  have hstrip : stripSqlComments sql = sql := by
    unfold stripSqlComments
    rw [hcm]
    simp
  refine ⟨_, _, runRuleGenerator_ok _ store _ _ _ hext hok, ?_, ?_, ?_, ?_⟩
  · rw [lookupField_setField_ne _ "rule_text".data "rule_name".data _ (by decide)]
    rw [lookupField_setField_ne _ "rule_id".data "rule_name".data _ (by decide)]
    rw [coerceSeverityField_lookup_ne _ "rule_name".data (by decide)]
    exact hlv.1
  · rw [lookupField_setField_ne _ "rule_text".data "rule_description".data _ (by decide)]
    rw [lookupField_setField_ne _ "rule_id".data "rule_description".data _ (by decide)]
    rw [coerceSeverityField_lookup_ne _ "rule_description".data (by decide)]
    exact hlv.2.1
  · rw [lookupField_setField_ne _ "rule_text".data "severity".data _ (by decide)]
    rw [lookupField_setField_ne _ "rule_id".data "severity".data _ (by decide)]
    rw [coerceSeverityField_lookup_sev _ _ hlv.2.2.1]
    unfold coerceSeverity
    rw [if_pos hsev]
  · rw [lookupField_setField_self, hstrip]

theorem rule_json_roundtrip_witness :
    ('\x7b' ∉ "Here is the rule: ".data ∧ '\x7d' ∉ " Done.".data
      ∧ JVal.str "HIGH".data ∈ severityValues)
    ∧ ∃ rd2 store1,
        runRuleGenerator ("Here is the rule: ".data
            ++ encodeRuleJson "Positive Qty".data "Quantities are positive".data
                "HIGH".data "SELECT * FROM trades WHERE quantity <= 0".data
            ++ " Done.".data) []
          = (rd2, store1)
        ∧ lookupField rd2 "rule_name".data = some (.str "Positive Qty".data)
        ∧ lookupField rd2 "rule_description".data
            = some (.str "Quantities are positive".data)
        ∧ lookupField rd2 "severity".data = some (.str "HIGH".data)
        ∧ lookupField rd2 "rule_text".data
            = some (.str "SELECT * FROM trades WHERE quantity <= 0".data) :=
  ⟨⟨by decide, by decide, by decide⟩,
   rule_json_roundtrip [] _ _ _ _ _ _ (by decide) (by decide) (by decide)
     (by decide) (by decide) (by decide) (by decide) (by decide) (by decide)
     (by decide) (by decide) (by decide)⟩

/-- C7 counterexample: for a decoded record missing `rule_text`, the rule
generator tool returns the fixed-message error record; that diagnostic
neither names the missing field (`rule_text` is not a substring of it) nor
contains the raw model text. -/
theorem missing_field_diag_counterexample :
    (runRuleGenerator contentMissingField []).1 = errorRuleData missingFieldsMsg
    ∧ containsSub "rule_text".data missingFieldsMsg = false
    ∧ containsSub contentMissingField missingFieldsMsg = false :=
  ⟨by rfl, by decide, by decide⟩

/-- C7 amended: when a required field is absent from the decoded record,
rule creation treats the record as a failure and performs no insert; the
tool's JSON path surfaces only the fixed diagnostic
`Missing required fields in rule data` (without the missing field names or
the raw text), while the CLI fallback parser's diagnostic (`missingFields`)
is what lists the absent field names. -/
theorem missing_field_failure (content : LC) (store : RuleStore) (rd : JObj)
    (f : LC) (hext : extractRuleJson content = .ok rd)
    (hf : f ∈ requiredFields) (hmiss : containsKey rd f = false) :
    runRuleGenerator content store = (errorRuleData missingFieldsMsg, store)
    ∧ f ∈ missingFields rd := by
  have hall : (requiredFields.all fun g => containsKey rd g) = false := by
    cases h : (requiredFields.all fun g => containsKey rd g) with
    | false => rfl
    | true =>
      have := List.all_eq_true.mp h f hf
      rw [hmiss] at this
      exact absurd this (by simp)
  have hproc : processRuleData store rd = .error missingFieldsMsg := by
    unfold processRuleData
    rw [if_neg (by simp [hall])]
  refine ⟨runRuleGenerator_err_proc _ _ _ _ hext hproc, ?_⟩
  simp [missingFields, List.mem_filter, hf, hmiss]

theorem missing_field_failure_witness :
    (extractRuleJson contentMissingField
        = .ok [("rule_name".data, .str "A".data),
               ("rule_description".data, .str "B".data),
               ("severity".data, .str "HIGH".data)]
      ∧ "rule_text".data ∈ requiredFields)
    ∧ runRuleGenerator contentMissingField []
        = (errorRuleData missingFieldsMsg, [])
    ∧ "rule_text".data ∈ missingFields
        [("rule_name".data, .str "A".data),
         ("rule_description".data, .str "B".data),
         ("severity".data, .str "HIGH".data)] :=
  ⟨⟨by rfl, by decide⟩,
   (missing_field_failure contentMissingField [] _ "rule_text".data (by rfl)
      (by decide) (by decide)).1,
   (missing_field_failure contentMissingField [] _ "rule_text".data (by rfl)
      (by decide) (by decide)).2⟩

/-- C10: when the tool cannot decode a JSON object carrying all four
required fields, the rule store is left unchanged and the returned record
is the fixed error shape with its `error` flag set; and whenever a row is
inserted, the inserted row carries a coerced severity (in
HIGH/MEDIUM/LOW) and the comment-stripped SQL of the decoded record. -/
theorem rule_error_shape_no_insert (content : LC) (store : RuleStore) :
    (((∃ e, extractRuleJson content = .error e)
        ∨ ∃ rd, extractRuleJson content = .ok rd
            ∧ (requiredFields.all fun f => containsKey rd f) = false) →
      (runRuleGenerator content store).2 = store
      ∧ ∃ e, (runRuleGenerator content store).1 = errorRuleData e
          ∧ lookupField (runRuleGenerator content store).1 "error".data
              = some (.bool true))
    ∧ ∀ r, (runRuleGenerator content store).2 = store ++ [r] →
        r.severity ∈ severityValues
        ∧ ∃ rd sql, extractRuleJson content = .ok rd
            ∧ lookupField rd "rule_text".data = some (.str sql)
            ∧ r.rule_text = stripSqlComments sql := by
  constructor
  · rintro (⟨e, he⟩ | ⟨rd, hok, hall⟩)
    · rw [runRuleGenerator_err_extract _ _ _ he]
      exact ⟨rfl, e, rfl, errorRuleData_flag e⟩
    · have hproc : processRuleData store rd = .error missingFieldsMsg := by
        unfold processRuleData
        rw [if_neg (by simp [hall])]
      rw [runRuleGenerator_err_proc _ _ _ _ hok hproc]
      exact ⟨rfl, missingFieldsMsg, rfl, errorRuleData_flag _⟩
  · intro r hr
    cases hext : extractRuleJson content with
    | error e =>
      rw [runRuleGenerator_err_extract _ _ _ hext] at hr
      have hlen := congrArg List.length hr
      simp at hlen
    | ok rd =>
      cases hproc : processRuleData store rd with
      | error e =>
        rw [runRuleGenerator_err_proc _ _ _ _ hext hproc] at hr
        have hlen := congrArg List.length hr
        simp at hlen
      | ok pair =>
        obtain ⟨rd2, store1⟩ := pair
        rw [runRuleGenerator_ok _ _ _ _ _ hext hproc] at hr
        obtain ⟨hall, sql, hsql, hstore⟩ :=
          processRuleData_ok_inv store rd rd2 store1 hproc
        rw [hstore] at hr
        have hrr : r = insertedRule rd sql := by
          have h1 := List.append_cancel_left hr.symm
          simpa using h1
        subst hrr
        have hsome : (lookupField rd "severity".data).isSome = true :=
          List.all_eq_true.mp hall "severity".data (by decide)
        obtain ⟨v, hv, hvmem⟩ := coerceSeverityField_mem rd hsome
        refine ⟨?_, rd, sql, rfl, ?_, rfl⟩
        · show ((lookupField (coerceSeverityField rd) "severity".data).getD
            (.str [])) ∈ severityValues
          rw [hv]
          simpa using hvmem
        · rw [← coerceSeverityField_lookup_ne rd "rule_text".data (by decide)]
          exact hsql

theorem rule_error_shape_no_insert_witness :
    (∃ e, extractRuleJson contentNoJson = .error e)
    ∧ (runRuleGenerator contentNoJson []).2 = ([] : RuleStore)
    ∧ ∃ e, (runRuleGenerator contentNoJson []).1 = errorRuleData e
        ∧ lookupField (runRuleGenerator contentNoJson []).1 "error".data
            = some (.bool true) :=
  ⟨⟨noJsonMsg, by rfl⟩,
   (rule_error_shape_no_insert contentNoJson []).1 (.inl ⟨noJsonMsg, by rfl⟩)⟩

theorem splitTicks_no_tick (s : LC) (h : '\x60' ∉ s) : splitTicks s = [s] := by
  induction s with
  | nil => rfl
  | cons c t ih =>
    have hc : ¬ c = '\x60' := fun hcc => h (hcc ▸ List.mem_cons_self c t)
    have ht : '\x60' ∉ t := fun hm => h (List.mem_cons_of_mem c hm)
    cases t with
    | nil => rfl
    | cons c2 t2 =>
      cases t2 with
      | nil => rfl
      | cons c3 rest =>
        rw [splitTicks, if_neg (by simp [hc]), ih ht]

theorem splitTicks_fence (a rest : LC) (h : '\x60' ∉ a) :
    splitTicks (a ++ '\x60' :: '\x60' :: '\x60' :: rest)
      = a :: splitTicks rest := by
  induction a with
  | nil =>
    show splitTicks ('\x60' :: '\x60' :: '\x60' :: rest) = [] :: splitTicks rest
    rw [splitTicks, if_pos (by simp)]
  | cons c a' ih =>
    have hc : ¬ c = '\x60' := fun hcc => h (hcc ▸ List.mem_cons_self c a')
    have ha' : '\x60' ∉ a' := fun hm => h (List.mem_cons_of_mem c hm)
    have ih' := ih ha'
    cases a' with
    | nil =>
      simp only [List.nil_append] at ih'
      simp only [List.cons_append, List.nil_append]
      rw [splitTicks, if_neg (by simp [hc]), ih']
    | cons d a'' =>
      simp only [List.cons_append] at ih' ⊢
      cases a'' with
      | nil =>
        simp only [List.nil_append] at ih' ⊢
        rw [splitTicks, if_neg (by simp [hc]), ih']
      | cons e a3 =>
        simp only [List.cons_append] at ih' ⊢
        rw [splitTicks, if_neg (by simp [hc]), ih']

/-- C6 counterexample: for the fenced model output
\x60\x60\x60sql␤SELECT * FROM trades␤\x60\x60\x60 the parser returns
`SELECT * FROM trade` — the trailing `s` of `trades` is eaten by
`strip(\x22sql\x22)`, which removes characters of the set s/q/l — instead
of the claimed exact SQL `SELECT * FROM trades`. -/
theorem fenced_tag_strip_counterexample :
    nl2sqlRun fencedContent = .sqlQuery "SELECT * FROM trade".data
    ∧ nl2sqlRun fencedContent ≠ .sqlQuery "SELECT * FROM trades".data :=
  ⟨by rfl, by decide⟩

/-- C6 amended: when the model output is a keyword-free prefix, a fenced
block containing SELECT/WITH (case-insensitively), and a keyword-free
suffix, the parser returns the first backtick-split segment containing the
keyword — here the block — stripped of surrounding whitespace, then of any
leading/trailing characters from the set s/q/l (which removes a lowercase
`sql` tag but may also eat trailing s/q/l characters of the SQL itself),
then of whitespace again. Segments outside the fences are scanned too, so
a prefix containing SELECT or WITH would be chosen instead of the block. -/
theorem fenced_block_selection (pre block post : LC)
    (hpre : '\x60' ∉ pre) (hblock : '\x60' ∉ block) (hpost : '\x60' ∉ post)
    (hpreK : hasQueryKeyword pre = false)
    (hblockK : hasQueryKeyword block = true) :
    nl2sqlRun (pre ++ '\x60' :: '\x60' :: '\x60' ::
        (block ++ '\x60' :: '\x60' :: '\x60' :: post))
      = .sqlQuery (stripWsL (stripSetL "sql".data (stripWsL block))) := by
  have hfence : containsSub ['\x60', '\x60', '\x60']
      (pre ++ '\x60' :: '\x60' :: '\x60' ::
        (block ++ '\x60' :: '\x60' :: '\x60' :: post)) = true := by
    have h := containsSub_append_self ['\x60', '\x60', '\x60'] pre
      (block ++ '\x60' :: '\x60' :: '\x60' :: post)
    simpa using h
  have hsplit : splitTicks (pre ++ '\x60' :: '\x60' :: '\x60' ::
      (block ++ '\x60' :: '\x60' :: '\x60' :: post)) = [pre, block, post] := by
    rw [splitTicks_fence pre _ hpre]
    rw [splitTicks_fence block _ hblock]
    rw [splitTicks_no_tick post hpost]
  unfold nl2sqlRun
  rw [if_pos hfence, hsplit]
  rw [List.find?_cons_of_neg _ (by simp [hpreK])]
  rw [List.find?_cons_of_pos _ hblockK]

theorem fenced_block_selection_witness :
    (hasQueryKeyword "Answer:\n".data = false
      ∧ hasQueryKeyword "sql\nSELECT 1\n".data = true)
    ∧ nl2sqlRun ("Answer:\n".data ++ '\x60' :: '\x60' :: '\x60' ::
        ("sql\nSELECT 1\n".data ++ '\x60' :: '\x60' :: '\x60' :: " done".data))
      = .sqlQuery (stripWsL (stripSetL "sql".data (stripWsL "sql\nSELECT 1\n".data))) :=
  ⟨⟨by decide, by decide⟩,
   fenced_block_selection _ _ _ (by decide) (by decide) (by decide)
     (by decide) (by decide)⟩
